import Mathlib

/-!
# OpenCVVideo: the per-frame vision loop of `src/components/OpenCVVideo.js`

The component registers a `play` listener on a video element.  The listener
allocates a pool of OpenCV buffers and starts `processFrame`, a function that
re-arms itself with `setTimeout` until the video is paused or has ended.

The embedding is effect-based.  A call of `processFrame` is the list of
operations (`Op`) it performs, in program order; an exception thrown by an
OpenCV call cuts that list short (`execute`).  The browser's event loop is a
step function `step` on a scheduler state `Sched`, which keeps the registered
listeners, the video flags, the started loops and the global effect log.
OpenCV itself is not part of the repository: the two results the code inspects
(`cv.boundingRect`, `cv.contourArea`) are parameters (`OpenCV`), and the list
of contours `cv.findContours` left in the `contours` vector is an input of each
tick.
-/

namespace OpenCVVideo

/-! ## Data model -/

/-- The `cv.Rect` returned by `cv.boundingRect`. -/
structure Rect where
  x : Int
  y : Int
  width : Int
  height : Int
  deriving DecidableEq, Repr

/-- A `cv.Point`. -/
structure Point where
  x : Int
  y : Int
  deriving DecidableEq, Repr

/-- The part of the OpenCV runtime whose results `processFrame` inspects. -/
structure OpenCV (Contour : Type) where
  /-- The result of `cv.boundingRect(cnt)`. -/
  boundingRect : Contour → Rect
  /-- The result of `cv.contourArea(cnt)`. -/
  contourArea : Contour → ℚ

/-- The native buffers of one processing loop, named after the `const` that
holds them: eight allocated by the play handler, `edges` allocated in every
playing tick and `approx` allocated for every accepted contour. -/
inductive Buf
  | frame | hsv | mask | blurred | contours | hierarchy | lowerWhite | upperWhite
  | edges | approx
  deriving DecidableEq, Repr

/-- The buffers created by the play handler (lines 49-66). -/
def Buf.pooled : Buf → Bool
  | .edges => false
  | .approx => false
  | _ => true

/-- One effect of the play handler or of `processFrame`.  Buffer arguments are
kept so that the operand of every call can be read off the trace. -/
inductive Op
  /-- The expression `new cv.Mat(...)` or `new cv.MatVector()` bound to the named constant. -/
  | alloc (b : Buf)
  /-- The call `b.delete()`. -/
  | delete (b : Buf)
  /-- The call `cap.read(dst)`. -/
  | capRead (dst : Buf)
  /-- The call `cv.cvtColor(src, dst, cv.COLOR_BGR2HSV)`. -/
  | cvtColor (src dst : Buf)
  /-- The call `cv.GaussianBlur(src, dst, new cv.Size(kw, kh), 0)`. -/
  | GaussianBlur (src dst : Buf) (kw kh : Nat)
  /-- The call `cv.inRange(src, lowerb, upperb, dst)`. -/
  | inRange (src lowerb upperb dst : Buf)
  /-- The call `cv.Canny(image, edgeMap, threshold1, threshold2)`. -/
  | Canny (image edgeMap : Buf) (threshold1 threshold2 : Nat)
  /-- The call `cv.findContours(image, vec, hier, cv.RETR_TREE, cv.CHAIN_APPROX_SIMPLE)`. -/
  | findContours (image vec hier : Buf)
  /-- The call `context.clearRect(0, 0, canvasElement.width, canvasElement.height)`. -/
  | clearRect
  /-- The call `vec.get(i)`. -/
  | get (vec : Buf) (i : Nat)
  /-- The call `cv.boundingRect(cnt)` for the contour of index `i`. -/
  | boundingRect (i : Nat)
  /-- The call `cv.contourArea(cnt)` for the contour of index `i`. -/
  | contourArea (i : Nat)
  /-- The call `cv.arcLength(cnt, true)` for the contour of index `i`. -/
  | arcLength (i : Nat)
  /-- The call `cv.approxPolyDP(cnt, approxCurve, 0.02 * arcLength, true)`. -/
  | approxPolyDP (i : Nat) (approxCurve : Buf)
  /-- The call `cv.rectangle(img, pt1, pt2, color, thickness)`. -/
  | rectangle (img : Buf) (pt1 pt2 : Point) (color : List Nat) (thickness : Nat)
  /-- The call `cv.imshow(canvasElement, mat)`. -/
  | imshow (mat : Buf)
  /-- The call `setTimeout(processFrame, delay)`. -/
  | setTimeout (delay : ℚ)
  deriving DecidableEq, Repr

def Op.isAlloc : Op → Bool
  | .alloc _ => true
  | _ => false

def Op.isDelete : Op → Bool
  | .delete _ => true
  | _ => false

def Op.isRectangle : Op → Bool
  | .rectangle _ _ _ _ _ => true
  | _ => false

def Op.isImshow : Op → Bool
  | .imshow _ => true
  | _ => false

def Op.isSetTimeout : Op → Bool
  | .setTimeout _ => true
  | _ => false

/-- The calls into the vision library and the capture: the pipeline stages,
the only operations that are taken to be able to throw. -/
def Op.isStage : Op → Bool
  | .capRead _ => true
  | .cvtColor _ _ => true
  | .GaussianBlur _ _ _ _ => true
  | .inRange _ _ _ _ => true
  | .Canny _ _ _ _ => true
  | .findContours _ _ _ => true
  | .boundingRect _ => true
  | .contourArea _ => true
  | .arcLength _ => true
  | .approxPolyDP _ _ => true
  | .rectangle _ _ _ _ _ => true
  | .imshow _ => true
  | _ => false

/-- The buffers an operation writes: the destination arguments of the call. -/
def Op.writes : Op → List Buf
  | .alloc b => [b]
  | .delete b => [b]
  | .capRead dst => [dst]
  | .cvtColor _ dst => [dst]
  | .GaussianBlur _ dst _ _ => [dst]
  | .inRange _ _ _ dst => [dst]
  | .Canny _ edgeMap _ _ => [edgeMap]
  | .findContours _ vec hier => [vec, hier]
  | .approxPolyDP _ approxCurve => [approxCurve]
  | .rectangle img _ _ _ _ => [img]
  | _ => []

/-- The buffers an operation reads: the source arguments of the call. -/
def Op.reads : Op → List Buf
  | .cvtColor src _ => [src]
  | .GaussianBlur src _ _ _ => [src]
  | .inRange src lowerb upperb _ => [src, lowerb, upperb]
  | .Canny image _ _ _ => [image]
  | .findContours image _ _ => [image]
  | .get vec _ => [vec]
  | .rectangle img _ _ _ _ => [img]
  | .imshow mat => [mat]
  | _ => []

/-! ## The play handler and `processFrame` -/

/-- The constant of line 68, `const FPS = 30;`. -/
def FPS : ℚ := 30

/-- The allocations of the play handler, lines 49-66, in program order.
(`cap = new cv.VideoCapture(video)` wraps the video element and owns no
native buffer; it has no `delete`.) -/
def playHandlerAllocs : List Op :=
  [.alloc .frame, .alloc .hsv, .alloc .mask, .alloc .blurred,
   .alloc .contours, .alloc .hierarchy, .alloc .lowerWhite, .alloc .upperWhite]

section Pipeline

variable {Contour : Type} (cv : OpenCV Contour)

/-- The test of line 99, `area > 1000`. -/
def accepted (cnt : Contour) : Bool :=
  decide (cv.contourArea cnt > 1000)

/-- The `cv.rectangle` call of lines 103-109 for a bounding rectangle. -/
def drawRect (rect : Rect) : Op :=
  .rectangle .frame ⟨rect.x, rect.y⟩ ⟨rect.x + rect.width, rect.y + rect.height⟩
    [255, 0, 0, 255] 2

/-- One iteration of the `for` loop, lines 95-112, for the contour of index `i`. -/
def iteration (i : Nat) (cnt : Contour) : List Op :=
  [.get .contours i, .boundingRect i, .contourArea i] ++
  (if cv.contourArea cnt > 1000 then
    [.alloc .approx, .arcLength i, .approxPolyDP i .approx,
     drawRect (cv.boundingRect cnt),
     .delete .approx]
  else [])

/-- The `for` loop of lines 94-113 from index `i` over the remaining contours. -/
def forLoop : Nat → List Contour → List Op
  | _, [] => []
  | i, cnt :: rest => iteration cv i cnt ++ forLoop (i + 1) rest

/-- The body of `processFrame`, lines 70-119, when no call throws.  `paused` and
`ended` are the video flags read on line 71; `found` is the content of
`contours` after `cv.findContours` on line 89. -/
def processFrame (paused ended : Bool) (found : List Contour) : List Op :=
  if paused || ended then
    [.delete .frame, .delete .hsv, .delete .mask, .delete .blurred,
     .delete .contours, .delete .hierarchy, .delete .lowerWhite, .delete .upperWhite]
  else
    [.capRead .frame,
     .cvtColor .frame .hsv,
     .GaussianBlur .hsv .blurred 5 5,
     .inRange .blurred .lowerWhite .upperWhite .mask,
     .alloc .edges,
     .Canny .mask .edges 50 150,
     .findContours .edges .contours .hierarchy,
     .clearRect] ++
    forLoop cv 0 found ++
    [.imshow .frame,
     .delete .edges,
     .setTimeout (1000 / FPS)]

end Pipeline

/-- How a call of `processFrame` ends: the operations performed and whether an
exception left the function.  There is no `try` in the file, so the call that
throws and everything after it are not performed.  `failAt = some k` means that
the operation of index `k` of the body throws (when it is a pipeline stage). -/
def execute (failAt : Option Nat) (body : List Op) : List Op × Bool :=
  match failAt with
  | none => (body, false)
  | some k =>
    match body[k]? with
    | some op => if op.isStage then (body.take k, true) else (body, false)
    | none => (body, false)

/-! ## The effect, the listeners and the timers -/

/-- Where a started loop stands: `running` while a `setTimeout(processFrame, _)`
of it is pending, `stopped` once it returned from the branch of line 71,
`crashed` when an exception left `processFrame`. -/
inductive Status
  | running | stopped | crashed
  deriving DecidableEq, Repr

/-- The state the browser keeps for the component. -/
structure Sched where
  /-- Whether `window.cv` is defined. -/
  cv : Bool
  /-- Whether `videoRef.current` is set. -/
  videoRef : Bool
  /-- Whether `canvasRef.current` is set. -/
  canvasRef : Bool
  /-- The number of `play` listeners registered on the video element. -/
  listeners : Nat
  /-- The number of pending `setTimeout(processVideo, 100)`. -/
  pollTimers : Nat
  /-- The flag `video.paused`. -/
  paused : Bool
  /-- The flag `video.ended`. -/
  ended : Bool
  /-- The loops started so far, by loop number. -/
  loops : List Status
  /-- Every operation performed so far, with the number of its loop. -/
  log : List (Nat × Op)
  deriving DecidableEq, Repr

/-- The state before the first effect run: nothing registered, the video not
yet playing. -/
def Sched.init (cvLoaded videoRef canvasRef : Bool) : Sched :=
  { cv := cvLoaded, videoRef := videoRef, canvasRef := canvasRef,
    listeners := 0, pollTimers := 0, paused := true, ended := false,
    loops := [], log := [] }

/-- The function `processVideo`, lines 36-124: wait for `window.cv`, otherwise
register the play listener (`getContext` on a missing canvas throws before the
listener is added). -/
def processVideo (s : Sched) : Sched :=
  if !s.cv then
    { s with pollTimers := s.pollTimers + 1 }
  else if s.videoRef && s.canvasRef then
    { s with listeners := s.listeners + 1 }
  else s

/-- The body of the effect, lines 15-132.  The fabric canvas it creates and
the cleanup `Canvas.dispose()` do not touch the video listeners. -/
def useEffect (s : Sched) : Sched :=
  if !s.cv || !s.videoRef || !s.canvasRef then
    s
  else
    processVideo s

/-- What is left of a loop after a call of `processFrame`. -/
def statusAfter (r : List Op × Bool) : Status :=
  if r.2 then .crashed
  else if r.1.any Op.isSetTimeout then .running
  else .stopped

/-- The operations of `ops` performed by loop `l`, as log entries. -/
def tag (l : Nat) (ops : List Op) : List (Nat × Op) :=
  ops.map (fun op => (l, op))

section Scheduler

variable {Contour : Type} (cv : OpenCV Contour)

/-- The events of the component. -/
inductive Ev (Contour : Type)
  /-- The effect body runs: at mount and after every change of `text`. -/
  | effect
  /-- The script of OpenCV.js finishes loading: `window.cv` becomes defined. -/
  | cvLoaded
  /-- A pending `setTimeout(processVideo, 100)` fires. -/
  | pollTimer
  /-- The video starts playing and the `play` event is dispatched; `found` and
  `failAt` describe the frame the handlers see. -/
  | play (found : List Contour) (failAt : Option Nat)
  /-- The video is paused. -/
  | pause
  /-- The video reaches its end. -/
  | ended
  /-- The pending timer of loop `l` fires. -/
  | timer (l : Nat) (found : List Contour) (failAt : Option Nat)

/-- One run of the play listener, lines 47-123: allocate the pool, then call
`processFrame()` (line 122). -/
def playHandler (found : List Contour) (failAt : Option Nat) (s : Sched) : Sched :=
  let r := execute failAt (processFrame cv s.paused s.ended found)
  { s with
    loops := s.loops ++ [statusAfter r],
    log := s.log ++ tag s.loops.length (playHandlerAllocs ++ r.1) }

/-- Dispatch of the `play` event to `n` registered listeners. -/
def dispatchPlay (found : List Contour) (failAt : Option Nat) : Nat → Sched → Sched
  | 0, s => s
  | n + 1, s => dispatchPlay found failAt n (playHandler cv found failAt s)

/-- A timer of loop `l` fires and calls `processFrame`. -/
def fireTimer (l : Nat) (found : List Contour) (failAt : Option Nat) (s : Sched) : Sched :=
  if s.loops[l]? = some .running then
    let r := execute failAt (processFrame cv s.paused s.ended found)
    { s with
      loops := s.loops.set l (statusAfter r),
      log := s.log ++ tag l r.1 }
  else s

/-- One event of the browser's event loop. -/
def step (s : Sched) : Ev Contour → Sched
  | .effect => useEffect s
  | .cvLoaded => { s with cv := true }
  | .pollTimer =>
    if 0 < s.pollTimers then processVideo { s with pollTimers := s.pollTimers - 1 } else s
  | .play found failAt =>
    dispatchPlay cv found failAt s.listeners { s with paused := false, ended := false }
  | .pause => { s with paused := true }
  | .ended => { s with ended := true }
  | .timer l found failAt => fireTimer cv l found failAt s

/-- The state after a sequence of events. -/
def run (s : Sched) (es : List (Ev Contour)) : Sched :=
  es.foldl (step cv) s

end Scheduler

/-- The number of loops with a pending timer. -/
def Sched.runningCount (s : Sched) : Nat :=
  s.loops.count .running

/-! ## The native heap -/

/-- A buffer of a loop: the loop number and the constant that holds it. -/
abbrev Handle := Nat × Buf

/-- The native heap seen through the log: the buffers that are allocated and
not yet released, and the two counters. -/
structure Heap where
  live : Finset Handle
  allocs : Nat
  releases : Nat

/-- The empty heap. -/
def Heap.empty : Heap := ⟨∅, 0, 0⟩

/-- The effect of one logged operation on the heap, `none` when the operation
is illegal: an allocation into a constant whose buffer is still live, a
release of a buffer that is not live, or a read or write of a buffer that is
not live. -/
def Heap.apply (h : Heap) (e : Nat × Op) : Option Heap :=
  match e.2 with
  | .alloc b =>
    if (e.1, b) ∈ h.live then none
    else some ⟨insert (e.1, b) h.live, h.allocs + 1, h.releases⟩
  | .delete b =>
    if (e.1, b) ∈ h.live then some ⟨h.live.erase (e.1, b), h.allocs, h.releases + 1⟩
    else none
  | op =>
    if ∀ b ∈ op.reads ++ op.writes, (e.1, b) ∈ h.live then some h else none

/-- Replay of a log from a heap. -/
def Heap.replay (h : Heap) (log : List (Nat × Op)) : Option Heap :=
  log.foldlM Heap.apply h

/-- A runtime whose contours are given by their bounding rectangle and area,
used for the closed instances below. -/
def sampleCv : OpenCV (Rect × ℚ) := ⟨Prod.fst, Prod.snd⟩

/-- The operations of loop `l` in a log, in order. -/
def logOf (l : Nat) (log : List (Nat × Op)) : List Op :=
  (log.filter (fun e => e.1 == l)).map Prod.snd

/-- An event sequence in which the effect body runs only while no play
listener is registered and the video starts playing only while no loop has a
pending timer. -/
def disciplined {Contour : Type} (cv : OpenCV Contour) (s : Sched) : List (Ev Contour) → Bool
  | [] => true
  | .effect :: es => s.listeners == 0 && disciplined cv (step cv s .effect) es
  | .play found failAt :: es =>
    s.runningCount == 0 && disciplined cv (step cv s (.play found failAt)) es
  | e :: es => disciplined cv (step cv s e) es

/-- The heap `h` is the result of the log of `s`, holds nothing of a loop that
was not started, holds exactly the pool of every running loop and nothing of a
stopped loop. -/
structure Inv (s : Sched) (h : Heap) : Prop where
  replay : Heap.empty.replay s.log = some h
  balanced : h.allocs = h.releases + h.live.card
  bound : ∀ l b, (l, b) ∈ h.live → l < s.loops.length
  pool : ∀ l, s.loops[l]? = some .running → ∀ b, ((l, b) ∈ h.live ↔ b.pooled = true)
  freed : ∀ l, s.loops[l]? = some .stopped → ∀ b, (l, b) ∉ h.live

/-! ## Lemmas on one call of `processFrame` -/

section TickLemmas

variable {Contour : Type} (cv : OpenCV Contour)

theorem accepted_eq :
    accepted cv = fun c => decide (cv.contourArea c > 1000) := rfl

theorem processFrame_stop (paused ended : Bool) (found : List Contour)
    (h : (paused || ended) = true) :
    processFrame cv paused ended found =
      [.delete .frame, .delete .hsv, .delete .mask, .delete .blurred,
       .delete .contours, .delete .hierarchy, .delete .lowerWhite, .delete .upperWhite] := by
  simp [processFrame, h]

theorem processFrame_playing (paused ended : Bool) (found : List Contour)
    (h : (paused || ended) = false) :
    processFrame cv paused ended found =
      [.capRead .frame, .cvtColor .frame .hsv, .GaussianBlur .hsv .blurred 5 5,
       .inRange .blurred .lowerWhite .upperWhite .mask, .alloc .edges,
       .Canny .mask .edges 50 150, .findContours .edges .contours .hierarchy,
       .clearRect] ++ forLoop cv 0 found ++
      [.imshow .frame, .delete .edges, .setTimeout (1000 / FPS)] := by
  simp [processFrame, h]

theorem iteration_accepted (i : Nat) (cnt : Contour) (h : cv.contourArea cnt > 1000) :
    iteration cv i cnt =
      [.get .contours i, .boundingRect i, .contourArea i, .alloc .approx, .arcLength i,
       .approxPolyDP i .approx, drawRect (cv.boundingRect cnt), .delete .approx] := by
  simp [iteration, h]

theorem iteration_rejected (i : Nat) (cnt : Contour) (h : ¬ cv.contourArea cnt > 1000) :
    iteration cv i cnt = [.get .contours i, .boundingRect i, .contourArea i] := by
  simp [iteration, h]

theorem forLoop_filter_rectangle (i : Nat) (found : List Contour) :
    (forLoop cv i found).filter Op.isRectangle =
      (found.filter (accepted cv)).map (fun c => drawRect (cv.boundingRect c)) := by
  induction found generalizing i with
  | nil => simp [forLoop]
  | cons c rest ih =>
    by_cases h : cv.contourArea c > 1000
    · simp [forLoop, List.filter_append, ih, iteration_accepted cv i c h, accepted, h,
        Op.isRectangle, drawRect]
    · simp [forLoop, List.filter_append, ih, iteration_rejected cv i c h, accepted, h,
        Op.isRectangle]

theorem forLoop_countP_alloc (i : Nat) (found : List Contour) :
    (forLoop cv i found).countP Op.isAlloc = found.countP (accepted cv) := by
  induction found generalizing i with
  | nil => simp [forLoop]
  | cons c rest ih =>
    by_cases h : cv.contourArea c > 1000
    · simp [forLoop, List.countP_append, ih, iteration_accepted cv i c h, accepted, h,
        Op.isAlloc, drawRect, List.countP_cons]
    · simp [forLoop, List.countP_append, ih, iteration_rejected cv i c h, accepted, h,
        Op.isAlloc, List.countP_cons]

theorem forLoop_countP_delete (i : Nat) (found : List Contour) :
    (forLoop cv i found).countP Op.isDelete = found.countP (accepted cv) := by
  induction found generalizing i with
  | nil => simp [forLoop]
  | cons c rest ih =>
    by_cases h : cv.contourArea c > 1000
    · simp [forLoop, List.countP_append, ih, iteration_accepted cv i c h, accepted, h,
        Op.isDelete, drawRect, List.countP_cons]
    · simp [forLoop, List.countP_append, ih, iteration_rejected cv i c h, accepted, h,
        Op.isDelete, List.countP_cons]

theorem forLoop_mem (i : Nat) (found : List Contour) (op : Op)
    (h : op ∈ forLoop cv i found) : ∃ j, ∃ c ∈ found, op ∈ iteration cv j c := by
  induction found generalizing i with
  | nil => simp [forLoop] at h
  | cons c rest ih =>
    simp only [forLoop, List.mem_append] at h
    rcases h with h | h
    · exact ⟨i, c, List.mem_cons_self _ _, h⟩
    · obtain ⟨j, d, hd, hj⟩ := ih (i + 1) h
      exact ⟨j, d, List.mem_cons_of_mem _ hd, hj⟩

theorem forLoop_no_setTimeout (i : Nat) (found : List Contour) :
    ∀ op ∈ forLoop cv i found, op.isSetTimeout = false := by
  intro op h
  obtain ⟨j, c, _, hj⟩ := forLoop_mem cv i found op h
  by_cases hc : cv.contourArea c > 1000
  · rw [iteration_accepted cv j c hc] at hj
    simp only [List.mem_cons, List.mem_singleton, List.not_mem_nil, or_false] at hj
    rcases hj with rfl | rfl | rfl | rfl | rfl | rfl | rfl | rfl <;> rfl
  · rw [iteration_rejected cv j c hc] at hj
    simp only [List.mem_cons, List.mem_singleton, List.not_mem_nil, or_false] at hj
    rcases hj with rfl | rfl | rfl <;> rfl

theorem forLoop_eq_flatten (i : Nat) (found : List Contour) :
    forLoop cv i found =
      ((found.enumFrom i).map (fun p => iteration cv p.1 p.2)).flatten := by
  induction found generalizing i with
  | nil => simp [forLoop]
  | cons c rest ih => simp [forLoop, List.enumFrom, ih]

end TickLemmas

/-! ## The area filter and the drawing -/

section Drawing

variable {Contour : Type}

/-- C1: a playing tick runs the loop body once per contour, in index order; the
body draws a rectangle for contour `i` exactly when `cv.contourArea` of it is
strictly above 1000; for an area of 1000 or less the body only fetches the
contour and reads its bounding rectangle and area; so the rectangles of a tick
are as many as the contours of area above 1000. -/
theorem rectangle_drawn_iff_area_gt_1000 (cv : OpenCV Contour) (found : List Contour) :
    processFrame cv false false found =
        [.capRead .frame, .cvtColor .frame .hsv, .GaussianBlur .hsv .blurred 5 5,
         .inRange .blurred .lowerWhite .upperWhite .mask, .alloc .edges,
         .Canny .mask .edges 50 150, .findContours .edges .contours .hierarchy,
         .clearRect] ++
        (found.enum.map (fun p => iteration cv p.1 p.2)).flatten ++
        [.imshow .frame, .delete .edges, .setTimeout (1000 / FPS)] ∧
    (∀ i cnt, (iteration cv i cnt).any Op.isRectangle = true ↔ cv.contourArea cnt > 1000) ∧
    (∀ i cnt, cv.contourArea cnt ≤ 1000 →
      iteration cv i cnt = [.get .contours i, .boundingRect i, .contourArea i]) ∧
    (processFrame cv false false found).countP Op.isRectangle =
      found.countP (fun c => decide (cv.contourArea c > 1000)) := by
  refine ⟨?_, ?_, ?_, ?_⟩
  · rw [processFrame_playing cv false false found rfl, forLoop_eq_flatten, List.enum]
  · intro i cnt
    by_cases h : cv.contourArea cnt > 1000
    · simp [iteration_accepted cv i cnt h, h, Op.isRectangle, drawRect]
    · simp [iteration_rejected cv i cnt h, h, Op.isRectangle]
  · intro i cnt h
    exact iteration_rejected cv i cnt (not_lt.mpr h)
  · rw [processFrame_playing cv false false found rfl, List.countP_eq_length_filter,
      List.filter_append, List.filter_append, forLoop_filter_rectangle]
    simp [Op.isRectangle, List.countP_eq_length_filter, accepted_eq]

/-- C1, closed instance: of two contours of areas 1000 and 1001 only the second
is drawn. -/
theorem rectangle_drawn_iff_area_gt_1000_witness :
    iteration sampleCv 0 (⟨0, 0, 10, 10⟩, 1000) =
        [.get .contours 0, .boundingRect 0, .contourArea 0] ∧
    (processFrame sampleCv false false
        [(⟨0, 0, 10, 10⟩, 1000), (⟨5, 5, 50, 50⟩, 1001)]).countP Op.isRectangle = 1 :=
  ⟨(rectangle_drawn_iff_area_gt_1000 sampleCv []).2.2.1 0 (⟨0, 0, 10, 10⟩, 1000) (by decide),
   (rectangle_drawn_iff_area_gt_1000 sampleCv
      [(⟨0, 0, 10, 10⟩, 1000), (⟨5, 5, 50, 50⟩, 1001)]).2.2.2.trans (by decide)⟩

/-- C2: on a tick of a playing source the `cv.rectangle` calls are, in order,
one per accepted contour in contour order, each on `frame`, from
`(rect.x, rect.y)` to `(rect.x + rect.width, rect.y + rect.height)`, with
colour `[255, 0, 0, 255]` and thickness 2. -/
theorem rectangles_are_accepted_bounding_rects (cv : OpenCV Contour)
    (paused ended : Bool) (found : List Contour) (h : (paused || ended) = false) :
    (processFrame cv paused ended found).filter Op.isRectangle =
      (found.filter (fun c => decide (cv.contourArea c > 1000))).map
        (fun c => Op.rectangle .frame
          ⟨(cv.boundingRect c).x, (cv.boundingRect c).y⟩
          ⟨(cv.boundingRect c).x + (cv.boundingRect c).width,
           (cv.boundingRect c).y + (cv.boundingRect c).height⟩
          [255, 0, 0, 255] 2) := by
  rw [processFrame_playing cv paused ended found h, List.filter_append, List.filter_append,
    forLoop_filter_rectangle]
  simp [Op.isRectangle, accepted_eq, drawRect]

/-- C2, closed instance: three contours, the first and the last accepted. -/
theorem rectangles_are_accepted_bounding_rects_witness :
    (processFrame sampleCv false false
        [(⟨400, 200, 100, 100⟩, 10000), (⟨1, 1, 3, 3⟩, 9), (⟨7, 8, 40, 50⟩, 2000)]).filter
        Op.isRectangle =
      [.rectangle .frame ⟨400, 200⟩ ⟨500, 300⟩ [255, 0, 0, 255] 2,
       .rectangle .frame ⟨7, 8⟩ ⟨47, 58⟩ [255, 0, 0, 255] 2] :=
  (rectangles_are_accepted_bounding_rects sampleCv false false
    [(⟨400, 200, 100, 100⟩, 10000), (⟨1, 1, 3, 3⟩, 9), (⟨7, 8, 40, 50⟩, 2000)] rfl).trans
    (by decide)

/-- C3: when no contour has an area above 1000 a playing tick draws no
rectangle, and between `cap.read(frame)` and `cv.imshow(canvasElement, frame)`
no operation has `frame` among its destinations; hence under every
interpretation of the operations that leaves the buffers an operation does not
write unchanged, the frame shown is the frame read. -/
theorem no_detection_frame_untouched (cv : OpenCV Contour) (found : List Contour)
    (hnone : ∀ c ∈ found, ¬ cv.contourArea c > 1000) :
    (processFrame cv false false found).countP Op.isRectangle = 0 ∧
    ∃ mid : List Op,
      processFrame cv false false found =
        Op.capRead .frame :: mid ++
          [.imshow .frame, .delete .edges, .setTimeout (1000 / FPS)] ∧
      (∀ op ∈ mid, Buf.frame ∉ op.writes) ∧
      ∀ (Mat : Type) (sem : Op → (Buf → Mat) → Buf → Mat),
        (∀ op st b, b ∉ op.writes → sem op st b = st b) →
        ∀ st : Buf → Mat, (mid.foldl (fun st op => sem op st) st) .frame = st .frame := by
  have hfilter : found.filter (accepted cv) = [] := by
    rw [List.filter_eq_nil_iff]
    intro c hc
    simp [accepted, hnone c hc]
  have hmid : ∀ op ∈ [Op.cvtColor .frame .hsv, .GaussianBlur .hsv .blurred 5 5,
        .inRange .blurred .lowerWhite .upperWhite .mask, .alloc .edges,
        .Canny .mask .edges 50 150, .findContours .edges .contours .hierarchy,
        .clearRect] ++ forLoop cv 0 found, Buf.frame ∉ op.writes := by
    intro op hop
    rcases List.mem_append.mp hop with hop | hop
    · simp only [List.mem_cons, List.mem_singleton, List.not_mem_nil, or_false] at hop
      rcases hop with rfl | rfl | rfl | rfl | rfl | rfl | rfl <;> simp [Op.writes]
    · obtain ⟨j, c, hc, hj⟩ := forLoop_mem cv 0 found op hop
      rw [iteration_rejected cv j c (hnone c hc)] at hj
      simp only [List.mem_cons, List.mem_singleton, List.not_mem_nil, or_false] at hj
      rcases hj with rfl | rfl | rfl <;> simp [Op.writes]
  refine ⟨?_, _, ?_, hmid, ?_⟩
  · rw [List.countP_eq_length_filter, processFrame_playing cv false false found rfl,
      List.filter_append, List.filter_append, forLoop_filter_rectangle, hfilter]
    simp [Op.isRectangle]
  · rw [processFrame_playing cv false false found rfl]
    simp
  · intro Mat sem hsem
    generalize ([Op.cvtColor .frame .hsv, .GaussianBlur .hsv .blurred 5 5,
        .inRange .blurred .lowerWhite .upperWhite .mask, .alloc .edges,
        .Canny .mask .edges 50 150, .findContours .edges .contours .hierarchy,
        .clearRect] ++ forLoop cv 0 found) = mid at hmid
    induction mid with
    | nil => intro st; rfl
    | cons op rest ih =>
      intro st
      rw [List.foldl_cons, ih (fun o ho => hmid o (List.mem_cons_of_mem _ ho)),
        hsem op st .frame (hmid op (List.mem_cons_self _ _))]

/-- C3, closed instance: one contour of area 1000.  The interpretation stores
in every buffer the list of operations that wrote it. -/
theorem no_detection_frame_untouched_witness :
    (processFrame sampleCv false false [(⟨0, 0, 40, 25⟩, 1000)]).countP Op.isRectangle = 0 ∧
    ∃ mid : List Op,
      processFrame sampleCv false false [(⟨0, 0, 40, 25⟩, 1000)] =
        Op.capRead .frame :: mid ++
          [.imshow .frame, .delete .edges, .setTimeout (1000 / FPS)] ∧
      (mid.foldl (fun st op => fun b => if b ∈ op.writes then op :: st b else st b)
        (fun _ => ([] : List Op))) .frame = [] := by
  obtain ⟨h0, mid, h1, _, h3⟩ := no_detection_frame_untouched sampleCv [(⟨0, 0, 40, 25⟩, 1000)]
    (by intro c hc; rw [List.mem_singleton] at hc; subst hc; decide)
  exact ⟨h0, mid, h1, h3 (List Op) (fun op st b => if b ∈ op.writes then op :: st b else st b)
    (by intro op st b hb; simp [hb]) (fun _ => [])⟩

end Drawing

/-! ## Lemmas on `execute` and on loops that have ended -/

section SchedulerLemmas

variable {Contour : Type} (cv : OpenCV Contour)

theorem execute_threw (failAt : Option Nat) (body : List Op)
    (h : (execute failAt body).2 = true) :
    ∃ k op, failAt = some k ∧ body[k]? = some op ∧ op.isStage = true ∧
      execute failAt body = (body.take k, true) := by
  cases failAt with
  | none => simp [execute] at h
  | some k =>
    cases hk : body[k]? with
    | none => simp [execute, hk] at h
    | some op =>
      by_cases hs : op.isStage = true
      · exact ⟨k, op, rfl, hk, hs, by simp [execute, hk, hs]⟩
      · simp [execute, hk, hs] at h

theorem execute_returned (failAt : Option Nat) (body : List Op)
    (h : (execute failAt body).2 = false) : execute failAt body = (body, false) := by
  cases failAt with
  | none => rfl
  | some k =>
    cases hk : body[k]? with
    | none => simp [execute, hk]
    | some op =>
      by_cases hs : op.isStage = true
      · simp [execute, hk, hs] at h
      · simp [execute, hk, hs]

theorem execute_stop (failAt : Option Nat) (paused ended : Bool) (found : List Contour)
    (h : (paused || ended) = true) :
    execute failAt (processFrame cv paused ended found) =
      (processFrame cv paused ended found, false) := by
  apply execute_returned
  cases hthrew : (execute failAt (processFrame cv paused ended found)).2 with
  | false => rfl
  | true =>
    obtain ⟨k, op, _, hk, hs, _⟩ := execute_threw _ _ hthrew
    rw [processFrame_stop cv paused ended found h] at hk
    have hmem := List.mem_iff_getElem?.mpr ⟨k, hk⟩
    simp only [List.mem_cons, List.mem_singleton, List.not_mem_nil, or_false] at hmem
    rcases hmem with rfl | rfl | rfl | rfl | rfl | rfl | rfl | rfl <;> simp [Op.isStage] at hs

theorem statusAfter_stop (paused ended : Bool) (found : List Contour)
    (h : (paused || ended) = true) :
    statusAfter (processFrame cv paused ended found, false) = .stopped := by
  rw [processFrame_stop cv paused ended found h]
  rfl

theorem statusAfter_playing (paused ended : Bool) (found : List Contour)
    (h : (paused || ended) = false) :
    statusAfter (processFrame cv paused ended found, false) = .running := by
  rw [processFrame_playing cv paused ended found h]
  simp [statusAfter, Op.isSetTimeout]

theorem logOf_append (l : Nat) (a b : List (Nat × Op)) :
    logOf l (a ++ b) = logOf l a ++ logOf l b := by
  simp [logOf]

theorem logOf_tag_self (l : Nat) (ops : List Op) : logOf l (tag l ops) = ops := by
  induction ops with
  | nil => rfl
  | cons op rest ih =>
    simp only [logOf, tag] at ih
    simp [logOf, tag, ih]

theorem logOf_tag_ne (l k : Nat) (ops : List Op) (h : k ≠ l) : logOf l (tag k ops) = [] := by
  induction ops with
  | nil => rfl
  | cons op rest ih =>
    simp only [logOf, tag] at ih
    simp [logOf, tag, h]

/-- A loop that is not running is left alone by the play handler. -/
theorem playHandler_keeps (found : List Contour) (failAt : Option Nat) (s : Sched)
    (l : Nat) (st : Status) (h : s.loops[l]? = some st) :
    (playHandler cv found failAt s).loops[l]? = some st ∧
    logOf l (playHandler cv found failAt s).log = logOf l s.log := by
  have hl : l < s.loops.length := by
    rcases Nat.lt_or_ge l s.loops.length with hlt | hge
    · exact hlt
    · rw [List.getElem?_eq_none hge] at h
      cases h
  constructor
  · simp only [playHandler]
    rw [List.getElem?_append_left hl, h]
  · simp only [playHandler]
    rw [logOf_append, logOf_tag_ne l _ _ (Nat.ne_of_gt hl), List.append_nil]

theorem dispatchPlay_keeps (found : List Contour) (failAt : Option Nat) (n : Nat) (s : Sched)
    (l : Nat) (st : Status) (h : s.loops[l]? = some st) :
    (dispatchPlay cv found failAt n s).loops[l]? = some st ∧
    logOf l (dispatchPlay cv found failAt n s).log = logOf l s.log := by
  induction n generalizing s with
  | zero => exact ⟨h, rfl⟩
  | succ n ih =>
    obtain ⟨h1, h2⟩ := playHandler_keeps cv found failAt s l st h
    obtain ⟨h3, h4⟩ := ih (playHandler cv found failAt s) h1
    exact ⟨h3, h4.trans h2⟩

theorem processVideo_loops_log (s : Sched) :
    (processVideo s).loops = s.loops ∧ (processVideo s).log = s.log := by
  unfold processVideo
  split
  · exact ⟨rfl, rfl⟩
  · split <;> exact ⟨rfl, rfl⟩

theorem useEffect_loops_log (s : Sched) :
    (useEffect s).loops = s.loops ∧ (useEffect s).log = s.log := by
  unfold useEffect
  split
  · exact ⟨rfl, rfl⟩
  · exact processVideo_loops_log s

/-- One event leaves a loop that is not running as it is. -/
theorem step_keeps (s : Sched) (e : Ev Contour) (l : Nat) (st : Status)
    (h : s.loops[l]? = some st) (hst : st ≠ .running) :
    (step cv s e).loops[l]? = some st ∧ logOf l (step cv s e).log = logOf l s.log := by
  cases e with
  | effect =>
    simp only [step]
    rw [(useEffect_loops_log s).1, (useEffect_loops_log s).2]
    exact ⟨h, rfl⟩
  | cvLoaded => exact ⟨h, rfl⟩
  | pollTimer =>
    simp only [step]
    split
    · rw [(processVideo_loops_log _).1, (processVideo_loops_log _).2]
      exact ⟨h, rfl⟩
    · exact ⟨h, rfl⟩
  | play found failAt =>
    exact dispatchPlay_keeps cv found failAt s.listeners _ l st h
  | pause => exact ⟨h, rfl⟩
  | ended => exact ⟨h, rfl⟩
  | timer k found failAt =>
    simp only [step, fireTimer]
    split
    · rename_i hk
      have hne : k ≠ l := by
        rintro rfl
        rw [h] at hk
        exact hst (Option.some.inj hk)
      constructor
      · simp only [List.getElem?_set, if_neg hne]
        exact h
      · simp only []
        rw [logOf_append, logOf_tag_ne l k _ hne, List.append_nil]
    · exact ⟨h, rfl⟩

/-- A loop that stopped or crashed never runs again: whatever happens later,
its status and its operations stay what they are. -/
theorem ended_loop_terminal (es : List (Ev Contour)) (s : Sched) (l : Nat) (st : Status)
    (h : s.loops[l]? = some st) (hst : st ≠ .running) :
    (run cv s es).loops[l]? = some st ∧ logOf l (run cv s es).log = logOf l s.log := by
  induction es generalizing s with
  | nil => exact ⟨h, rfl⟩
  | cons e es ih =>
    obtain ⟨h1, h2⟩ := step_keeps cv s e l st h hst
    obtain ⟨h3, h4⟩ := ih (step cv s e) h1
    exact ⟨h3, h4.trans h2⟩

end SchedulerLemmas

/-! ## Stopping, scheduling and failing ticks -/

section Ticks

variable {Contour : Type}

theorem fireTimer_running (cv : OpenCV Contour) (l : Nat) (found : List Contour)
    (failAt : Option Nat) (s : Sched) (h : s.loops[l]? = some .running) :
    (fireTimer cv l found failAt s).loops[l]? =
        some (statusAfter (execute failAt (processFrame cv s.paused s.ended found))) ∧
    (fireTimer cv l found failAt s).log =
        s.log ++ tag l (execute failAt (processFrame cv s.paused s.ended found)).1 ∧
    (fireTimer cv l found failAt s).paused = s.paused ∧
    (fireTimer cv l found failAt s).ended = s.ended := by
  have hl : l < s.loops.length := by
    rcases Nat.lt_or_ge l s.loops.length with hlt | hge
    · exact hlt
    · rw [List.getElem?_eq_none hge] at h
      cases h
  simp [fireTimer, h, hl]

/-- In a playing tick the operations before the one that throws are operations
of the pipeline proper: none of them shows the frame, re-arms the timer, or
releases anything but an `approx`. -/
theorem playing_take_ops (cv : OpenCV Contour) (paused ended : Bool) (found : List Contour)
    (h : (paused || ended) = false) (k : Nat) (op : Op)
    (hk : (processFrame cv paused ended found)[k]? = some op) (hs : op.isStage = true) :
    ∀ o ∈ (processFrame cv paused ended found).take k,
      o.isImshow = false ∧ o.isSetTimeout = false ∧ ∀ b, o = .delete b → b = .approx := by
  rw [processFrame_playing cv paused ended found h] at hk ⊢
  generalize hA : [Op.capRead .frame, .cvtColor .frame .hsv, .GaussianBlur .hsv .blurred 5 5,
       .inRange .blurred .lowerWhite .upperWhite .mask, .alloc .edges,
       .Canny .mask .edges 50 150, .findContours .edges .contours .hierarchy,
       .clearRect] ++ forLoop cv 0 found = A at hk ⊢
  have hle : k ≤ A.length := by
    by_contra hlt
    have hlt : A.length < k := Nat.lt_of_not_le hlt
    rw [List.getElem?_append_right (Nat.le_of_lt hlt)] at hk
    obtain ⟨d, hd⟩ : ∃ d, k - A.length = d + 1 := ⟨k - A.length - 1, by omega⟩
    rw [hd] at hk
    rcases d with _ | _ | d
    · simp at hk
      subst hk
      simp [Op.isStage] at hs
    · simp at hk
      subst hk
      simp [Op.isStage] at hs
    · simp at hk
  rw [List.take_append_of_le_length hle]
  intro o ho
  have ho : o ∈ A := List.mem_of_mem_take ho
  rw [← hA] at ho
  rcases List.mem_append.mp ho with ho | ho
  · simp only [List.mem_cons, List.mem_singleton, List.not_mem_nil, or_false] at ho
    rcases ho with rfl | rfl | rfl | rfl | rfl | rfl | rfl | rfl <;>
      simp [Op.isImshow, Op.isSetTimeout]
  · obtain ⟨j, c, _, hj⟩ := forLoop_mem cv 0 found o ho
    by_cases hc : cv.contourArea c > 1000
    · rw [iteration_accepted cv j c hc] at hj
      simp only [List.mem_cons, List.mem_singleton, List.not_mem_nil, or_false] at hj
      rcases hj with rfl | rfl | rfl | rfl | rfl | rfl | rfl | rfl <;>
        simp [Op.isImshow, Op.isSetTimeout, drawRect]
    · rw [iteration_rejected cv j c hc] at hj
      simp only [List.mem_cons, List.mem_singleton, List.not_mem_nil, or_false] at hj
      rcases hj with rfl | rfl | rfl <;> simp [Op.isImshow, Op.isSetTimeout]

/-- C4: on a tick at which the source is paused or has ended, whatever the
frame, `processFrame` performs exactly the eight releases of the buffers the
play handler allocated, each once, and nothing else: no stage, no drawing, no
`setTimeout`.  The loop is then stopped, and no later event makes it run
again: its operations end with these eight releases. -/
theorem stop_tick_releases_pool_once (cv : OpenCV Contour) (paused ended : Bool)
    (found : List Contour) (failAt : Option Nat) (h : (paused || ended) = true) :
    execute failAt (processFrame cv paused ended found) =
      ([Buf.frame, .hsv, .mask, .blurred, .contours, .hierarchy, .lowerWhite,
        .upperWhite].map Op.delete, false) ∧
    playHandlerAllocs =
      [Buf.frame, .hsv, .mask, .blurred, .contours, .hierarchy, .lowerWhite,
        .upperWhite].map Op.alloc ∧
    [Buf.frame, .hsv, .mask, .blurred, .contours, .hierarchy, .lowerWhite,
      .upperWhite].Nodup ∧
    (∀ op ∈ (execute failAt (processFrame cv paused ended found)).1,
      op.isStage = false ∧ op.isSetTimeout = false) ∧
    ∀ (s : Sched) (l : Nat), s.paused = paused → s.ended = ended →
      s.loops[l]? = some .running →
      ∀ es : List (Ev Contour),
        (run cv (fireTimer cv l found failAt s) es).loops[l]? = some .stopped ∧
        logOf l (run cv (fireTimer cv l found failAt s) es).log =
          logOf l s.log ++
            [Buf.frame, .hsv, .mask, .blurred, .contours, .hierarchy, .lowerWhite,
              .upperWhite].map Op.delete := by
  have hex := execute_stop cv failAt paused ended found h
  have hbody := processFrame_stop cv paused ended found h
  refine ⟨?_, rfl, by decide, ?_, ?_⟩
  · rw [hex, hbody]
    rfl
  · rw [hex, hbody]
    intro op hop
    simp only [List.mem_cons, List.mem_singleton, List.not_mem_nil, or_false] at hop
    rcases hop with rfl | rfl | rfl | rfl | rfl | rfl | rfl | rfl <;> exact ⟨rfl, rfl⟩
  · intro s l hp he hrun es
    obtain ⟨h1, h2, _, _⟩ := fireTimer_running cv l found failAt s hrun
    rw [hp, he, hex] at h1 h2
    rw [statusAfter_stop cv paused ended found h] at h1
    obtain ⟨h3, h4⟩ := ended_loop_terminal cv es _ l .stopped h1 (by decide)
    refine ⟨h3, ?_⟩
    rw [h4, h2, logOf_append, logOf_tag_self, hbody]
    rfl

/-- C4, closed instance: the video is paused after the first tick; the next
tick of loop 0 releases the pool and a further timer event does nothing. -/
theorem stop_tick_releases_pool_once_witness :
    (run sampleCv (fireTimer sampleCv 0 [] none
        (run sampleCv (Sched.init true true true) [.effect, .play [] none, .pause]))
        [.play [] none, .timer 0 [] none]).loops[0]? = some .stopped :=
  ((stop_tick_releases_pool_once sampleCv true false [] none rfl).2.2.2.2
    (run sampleCv (Sched.init true true true) [.effect, .play [] none, .pause]) 0
    rfl rfl (by decide) [.play [] none, .timer 0 [] none]).1

/-- C9: on a tick at which the source is neither paused nor ended and nothing
throws, `processFrame` ends with one `setTimeout` of delay 1000/30, whatever
the contours; no other `setTimeout` is issued; `cv.imshow` of the frame comes
before it; the loop stays running, and the operations of its next tick are
logged after all the operations of this one. -/
theorem playing_tick_schedules_one_next (cv : OpenCV Contour) (paused ended : Bool)
    (found : List Contour) (h : (paused || ended) = false) :
    (∃ work : List Op,
      processFrame cv paused ended found = work ++ [.setTimeout (1000 / 30)] ∧
      (∀ op ∈ work, op.isSetTimeout = false) ∧ Op.imshow .frame ∈ work) ∧
    (processFrame cv paused ended found).countP Op.isSetTimeout = 1 ∧
    statusAfter (execute none (processFrame cv paused ended found)) = .running ∧
    ∀ (s : Sched) (l : Nat) (found' : List Contour), s.paused = paused → s.ended = ended →
      s.loops[l]? = some .running →
      (fireTimer cv l found none s).loops[l]? = some .running ∧
      (fireTimer cv l found' none (fireTimer cv l found none s)).log =
        s.log ++ tag l (processFrame cv paused ended found) ++
          tag l (processFrame cv paused ended found') := by
  have hbody := processFrame_playing cv paused ended found h
  have hwork : ∀ op ∈ [Op.capRead .frame, .cvtColor .frame .hsv,
      .GaussianBlur .hsv .blurred 5 5, .inRange .blurred .lowerWhite .upperWhite .mask,
      .alloc .edges, .Canny .mask .edges 50 150, .findContours .edges .contours .hierarchy,
      .clearRect] ++ forLoop cv 0 found ++ [.imshow .frame, .delete .edges],
      op.isSetTimeout = false := by
    intro op hop
    rcases List.mem_append.mp hop with hop | hop
    · rcases List.mem_append.mp hop with hop | hop
      · simp only [List.mem_cons, List.mem_singleton, List.not_mem_nil, or_false] at hop
        rcases hop with rfl | rfl | rfl | rfl | rfl | rfl | rfl | rfl <;> rfl
      · exact forLoop_no_setTimeout cv 0 found op hop
    · simp only [List.mem_cons, List.mem_singleton, List.not_mem_nil, or_false] at hop
      rcases hop with rfl | rfl <;> rfl
  have hdelay : (1000 : ℚ) / FPS = 1000 / 30 := by simp [FPS]
  have hsplit : processFrame cv paused ended found =
      ([Op.capRead .frame, .cvtColor .frame .hsv,
      .GaussianBlur .hsv .blurred 5 5, .inRange .blurred .lowerWhite .upperWhite .mask,
      .alloc .edges, .Canny .mask .edges 50 150, .findContours .edges .contours .hierarchy,
      .clearRect] ++ forLoop cv 0 found ++ [.imshow .frame, .delete .edges]) ++
        [.setTimeout (1000 / 30)] := by
    rw [hbody, hdelay]
    simp
  refine ⟨⟨_, hsplit, hwork, by simp⟩, ?_, ?_, ?_⟩
  · rw [hsplit, List.countP_append, List.countP_eq_zero.mpr]
    · rfl
    · intro op hop
      simp [hwork op hop]
  · exact statusAfter_playing cv paused ended found h
  · intro s l found' hp he hrun
    obtain ⟨h1, h2, h3, h4⟩ := fireTimer_running cv l found none s hrun
    rw [hp, he] at h1 h2
    have h1' : (fireTimer cv l found none s).loops[l]? = some .running := by
      rw [h1]
      exact congrArg some (statusAfter_playing cv paused ended found h)
    obtain ⟨_, h6, _, _⟩ := fireTimer_running cv l found' none _ h1'
    rw [h3, h4, hp, he] at h6
    refine ⟨h1', ?_⟩
    rw [h6, h2]
    rfl

/-- C9, closed instance: two consecutive ticks of loop 0 on a playing video. -/
theorem playing_tick_schedules_one_next_witness :
    (processFrame sampleCv false false [(⟨400, 200, 100, 100⟩, 10000)]).countP
        Op.isSetTimeout = 1 ∧
    (fireTimer sampleCv 0 [(⟨400, 200, 100, 100⟩, 10000)] none
        (run sampleCv (Sched.init true true true) [.effect, .play [] none])).loops[0]? =
      some .running :=
  ⟨(playing_tick_schedules_one_next sampleCv false false
      [(⟨400, 200, 100, 100⟩, 10000)] rfl).2.1,
   ((playing_tick_schedules_one_next sampleCv false false
      [(⟨400, 200, 100, 100⟩, 10000)] rfl).2.2.2
      (run sampleCv (Sched.init true true true) [.effect, .play [] none]) 0 []
      rfl rfl (by decide)).1⟩

/-- C8, counterexample: a playing tick on a frame without contours allocates a
buffer (`edges`) and releases it. -/
theorem playing_tick_allocates_counterexample :
    ¬ ((processFrame sampleCv false false []).countP Op.isAlloc = 0 ∧
       (processFrame sampleCv false false []).countP Op.isDelete = 0) := by
  decide

/-- C8 as amended: the play handler allocates exactly the eight pooled buffers;
a playing tick allocates and releases no pooled buffer, but it allocates
`edges` and one `approx` per accepted contour and releases as many. -/
theorem playing_tick_allocates_edges_only (cv : OpenCV Contour) (paused ended : Bool)
    (found : List Contour) (h : (paused || ended) = false) :
    (∀ b : Buf, Op.alloc b ∈ playHandlerAllocs ↔ b.pooled = true) ∧
    (processFrame cv paused ended found).countP Op.isAlloc =
      1 + found.countP (fun c => decide (cv.contourArea c > 1000)) ∧
    (processFrame cv paused ended found).countP Op.isDelete =
      1 + found.countP (fun c => decide (cv.contourArea c > 1000)) ∧
    ∀ op ∈ processFrame cv paused ended found, ∀ b : Buf,
      op = .alloc b ∨ op = .delete b → b.pooled = false := by
  refine ⟨by intro b; cases b <;> decide, ?_, ?_, ?_⟩
  · rw [processFrame_playing cv paused ended found h, List.countP_append, List.countP_append,
      forLoop_countP_alloc, accepted_eq]
    simp [Op.isAlloc, List.countP_cons]
  · rw [processFrame_playing cv paused ended found h, List.countP_append, List.countP_append,
      forLoop_countP_delete, accepted_eq]
    simp [Op.isDelete, List.countP_cons]
    omega
  · intro op hop b hb
    rw [processFrame_playing cv paused ended found h] at hop
    rcases List.mem_append.mp hop with hop | hop
    · rcases List.mem_append.mp hop with hop | hop
      · simp only [List.mem_cons, List.mem_singleton, List.not_mem_nil, or_false] at hop
        rcases hop with rfl | rfl | rfl | rfl | rfl | rfl | rfl | rfl
        all_goals rcases hb with hb | hb
        all_goals cases hb
        all_goals rfl
      · obtain ⟨j, c, _, hj⟩ := forLoop_mem cv 0 found op hop
        by_cases hc : cv.contourArea c > 1000
        · rw [iteration_accepted cv j c hc] at hj
          simp only [List.mem_cons, List.mem_singleton, List.not_mem_nil, or_false] at hj
          rcases hj with rfl | rfl | rfl | rfl | rfl | rfl | rfl | rfl
          all_goals rcases hb with hb | hb
          all_goals cases hb
          all_goals rfl
        · rw [iteration_rejected cv j c hc] at hj
          simp only [List.mem_cons, List.mem_singleton, List.not_mem_nil, or_false] at hj
          rcases hj with rfl | rfl | rfl
          all_goals rcases hb with hb | hb
          all_goals cases hb
    · simp only [List.mem_cons, List.mem_singleton, List.not_mem_nil, or_false] at hop
      rcases hop with rfl | rfl | rfl
      all_goals rcases hb with hb | hb
      all_goals cases hb
      all_goals rfl

/-- C8 as amended, closed instance: two accepted contours out of three. -/
theorem playing_tick_allocates_edges_only_witness :
    (processFrame sampleCv false false
        [(⟨400, 200, 100, 100⟩, 10000), (⟨1, 1, 3, 3⟩, 9), (⟨7, 8, 40, 50⟩, 2000)]).countP
        Op.isAlloc = 3 :=
  (playing_tick_allocates_edges_only sampleCv false false
    [(⟨400, 200, 100, 100⟩, 10000), (⟨1, 1, 3, 3⟩, 9), (⟨7, 8, 40, 50⟩, 2000)] rfl).2.1.trans
    (by decide)

/-- C6, counterexample: `cv.Canny` throws in the second tick of loop 0.  The
loop is dead: no timer is pending, and after the video is paused and every
further event the pool of loop 0 and the `edges` of the failed tick are still
allocated. -/
theorem stage_failure_not_contained_counterexample :
    (run sampleCv (Sched.init true true true)
        [.effect, .play [] none, .timer 0 [] (some 5)]).loops = [.crashed] ∧
    (run sampleCv (Sched.init true true true)
        [.effect, .play [] none, .timer 0 [] (some 5)]).runningCount = 0 ∧
    (Heap.empty.replay (run sampleCv (Sched.init true true true)
        [.effect, .play [] none, .timer 0 [] (some 5), .pause, .timer 0 [] none]).log).map
          (fun h => [Buf.frame, .hsv, .mask, .blurred, .contours, .hierarchy, .lowerWhite,
            .upperWhite, .edges, .approx].filter (fun b => decide ((0, b) ∈ h.live))) =
      some [.frame, .hsv, .mask, .blurred, .contours, .hierarchy, .lowerWhite,
            .upperWhite, .edges] := by
  decide

/-- C6 as amended: when a stage of a playing tick throws, the tick stops
there: the frame is not shown, no `setTimeout` is issued and nothing but
`approx` buffers of earlier iterations has been released; the loop is left
crashed, and whatever happens later it never runs again, so its operations end
with the cut tick and its pool is never released. -/
theorem stage_failure_ends_loop (cv : OpenCV Contour) (s : Sched) (l : Nat)
    (found : List Contour) (failAt : Option Nat)
    (hrun : s.loops[l]? = some .running) (hplay : (s.paused || s.ended) = false)
    (hthrow : (execute failAt (processFrame cv s.paused s.ended found)).2 = true) :
    (∀ op ∈ (execute failAt (processFrame cv s.paused s.ended found)).1,
      op.isImshow = false ∧ op.isSetTimeout = false ∧ ∀ b, op = .delete b → b = .approx) ∧
    ∀ es : List (Ev Contour),
      (run cv (fireTimer cv l found failAt s) es).loops[l]? = some .crashed ∧
      logOf l (run cv (fireTimer cv l found failAt s) es).log =
        logOf l s.log ++ (execute failAt (processFrame cv s.paused s.ended found)).1 := by
  obtain ⟨k, op, _, hk, hs, hex⟩ := execute_threw _ _ hthrow
  constructor
  · rw [hex]
    exact playing_take_ops cv s.paused s.ended found hplay k op hk hs
  · intro es
    obtain ⟨h1, h2, _, _⟩ := fireTimer_running cv l found failAt s hrun
    have h1' : (fireTimer cv l found failAt s).loops[l]? = some .crashed := by
      rw [h1, hex]
      rfl
    obtain ⟨h3, h4⟩ := ended_loop_terminal cv es _ l .crashed h1' (by decide)
    refine ⟨h3, ?_⟩
    rw [h4, h2, logOf_append, logOf_tag_self]

/-- C6 as amended, closed instance: `cv.Canny` throws in the second tick of
loop 0; pausing and a stray timer event later, loop 0 is still crashed. -/
theorem stage_failure_ends_loop_witness :
    (run sampleCv (fireTimer sampleCv 0 [] (some 5)
        (run sampleCv (Sched.init true true true) [.effect, .play [] none]))
        [.pause, .timer 0 [] none]).loops[0]? = some .crashed :=
  ((stage_failure_ends_loop sampleCv
    (run sampleCv (Sched.init true true true) [.effect, .play [] none]) 0 [] (some 5)
    (by decide) (by decide) (by decide)).2 [.pause, .timer 0 [] none]).1

/-- C10: with `window.cv` undefined the effect body returns at its guard: it
registers nothing and starts no poll.  When OpenCV.js has loaded afterwards and
the video plays, there is still no listener, so no loop starts and nothing is
drawn.  The retry of `processVideo` is never armed by the effect. -/
theorem effect_gives_up_without_cv :
    (∀ s : Sched, s.cv = false → useEffect s = s) ∧
    (∀ s : Sched, (useEffect s).pollTimers = s.pollTimers) ∧
    run sampleCv (Sched.init false true true)
        [.effect, .cvLoaded, .play [(⟨400, 200, 100, 100⟩, 10000)] none, .pollTimer,
         .timer 0 [(⟨400, 200, 100, 100⟩, 10000)] none] =
      { cv := true, videoRef := true, canvasRef := true, listeners := 0, pollTimers := 0,
        paused := false, ended := false, loops := [], log := [] } := by
  refine ⟨?_, ?_, by decide⟩
  · intro s h
    simp [useEffect, h]
  · intro s
    unfold useEffect
    split
    · rfl
    · rename_i hg
      simp only [Bool.or_eq_true, Bool.not_eq_true', not_or, Bool.not_eq_false] at hg
      simp [processVideo, hg.1.1]
      split <;> rfl

end Ticks

/-! ## The heap along the log -/

section HeapLemmas

variable {Contour : Type}

theorem Heap.replay_nil (h : Heap) : h.replay [] = some h := rfl

theorem Heap.replay_cons (h : Heap) (e : Nat × Op) (log : List (Nat × Op)) :
    h.replay (e :: log) = (h.apply e).bind (fun h' => h'.replay log) := by
  simp [Heap.replay, List.foldlM_cons]

theorem Heap.replay_append (h : Heap) (a b : List (Nat × Op)) :
    h.replay (a ++ b) = (h.replay a).bind (fun h' => h'.replay b) := by
  simp [Heap.replay, List.foldlM_append]

theorem tag_append (l : Nat) (a b : List Op) : tag l (a ++ b) = tag l a ++ tag l b := by
  simp [tag]

theorem tag_cons (l : Nat) (op : Op) (ops : List Op) :
    tag l (op :: ops) = (l, op) :: tag l ops := rfl

theorem tag_nil (l : Nat) : tag l [] = [] := rfl

/-- A prefix of a legal log is legal. -/
theorem Heap.replay_take (h h' : Heap) (log : List (Nat × Op)) (k : Nat)
    (hr : h.replay log = some h') : ∃ h'', h.replay (log.take k) = some h'' := by
  rw [← List.take_append_drop k log, Heap.replay_append] at hr
  cases hpre : h.replay (log.take k) with
  | none => simp [hpre] at hr
  | some h'' => exact ⟨h'', rfl⟩

/-- An operation of loop `l` keeps allocations and releases balanced and does
not touch the buffers of the other loops. -/
theorem Heap.apply_frame (h h' : Heap) (l : Nat) (op : Op) (hap : h.apply (l, op) = some h') :
    (h.allocs = h.releases + h.live.card → h'.allocs = h'.releases + h'.live.card) ∧
    (∀ l' b, l' ≠ l → ((l', b) ∈ h'.live ↔ (l', b) ∈ h.live)) := by
  cases op
  case alloc b =>
    simp only [Heap.apply] at hap
    split at hap
    · cases hap
    · rename_i hb
      cases hap
      refine ⟨fun hbal => ?_, fun l' b' hne => ?_⟩
      · simp only [Finset.card_insert_of_not_mem hb]
        omega
      · simp [Finset.mem_insert, hne]
  case delete b =>
    simp only [Heap.apply] at hap
    split at hap
    · rename_i hb
      cases hap
      refine ⟨fun hbal => ?_, fun l' b' hne => ?_⟩
      · have hpos : 0 < h.live.card := Finset.card_pos.mpr ⟨_, hb⟩
        simp only [Finset.card_erase_of_mem hb]
        omega
      · simp [Finset.mem_erase, hne]
    · cases hap
  all_goals
    simp only [Heap.apply] at hap
    split at hap
    · cases hap
      exact ⟨fun hbal => hbal, fun _ _ _ => Iff.rfl⟩
    · cases hap

theorem Heap.replay_tag_frame (l : Nat) (ops : List Op) (h h' : Heap)
    (hr : h.replay (tag l ops) = some h') :
    (h.allocs = h.releases + h.live.card → h'.allocs = h'.releases + h'.live.card) ∧
    (∀ l' b, l' ≠ l → ((l', b) ∈ h'.live ↔ (l', b) ∈ h.live)) := by
  induction ops generalizing h with
  | nil =>
    cases hr
    exact ⟨fun hbal => hbal, fun _ _ _ => Iff.rfl⟩
  | cons op rest ih =>
    rw [tag_cons, Heap.replay_cons] at hr
    cases hap : h.apply (l, op) with
    | none => simp [hap] at hr
    | some h1 =>
      rw [hap] at hr
      obtain ⟨hb1, hl1⟩ := Heap.apply_frame h h1 l op hap
      obtain ⟨hb2, hl2⟩ := ih h1 hr
      exact ⟨fun hbal => hb2 (hb1 hbal), fun l' b hne => (hl2 l' b hne).trans (hl1 l' b hne)⟩

/-- The play handler's allocations on a heap that holds nothing of loop `l`. -/
theorem Heap.replay_playHandlerAllocs (l : Nat) (h : Heap) (hfresh : ∀ b, (l, b) ∉ h.live) :
    ∃ h', h.replay (tag l playHandlerAllocs) = some h' ∧
      ∀ b, ((l, b) ∈ h'.live ↔ b.pooled = true) := by
  refine ⟨⟨insert (l, .upperWhite) (insert (l, .lowerWhite) (insert (l, .hierarchy)
      (insert (l, .contours) (insert (l, .blurred) (insert (l, .mask) (insert (l, .hsv)
      (insert (l, .frame) h.live))))))), h.allocs + 8, h.releases⟩, ?_, ?_⟩
  · simp [playHandlerAllocs, tag, Heap.replay_cons, Heap.replay_nil, Heap.apply, hfresh]
  · intro b
    cases b <;> simp [hfresh, Buf.pooled]

/-- The stop branch on a heap that holds exactly the pool of loop `l`. -/
theorem Heap.replay_stop (cv : OpenCV Contour) (l : Nat) (h : Heap) (paused ended : Bool)
    (found : List Contour) (hstop : (paused || ended) = true)
    (hp : ∀ b, ((l, b) ∈ h.live ↔ b.pooled = true)) :
    ∃ h', h.replay (tag l (processFrame cv paused ended found)) = some h' ∧
      ∀ b, (l, b) ∉ h'.live := by
  rw [processFrame_stop cv paused ended found hstop]
  refine ⟨⟨(((((((h.live.erase (l, .frame)).erase (l, .hsv)).erase (l, .mask)).erase
      (l, .blurred)).erase (l, .contours)).erase (l, .hierarchy)).erase (l, .lowerWhite)).erase
      (l, .upperWhite), h.allocs, h.releases + 8⟩, ?_, ?_⟩
  · simp [tag, Heap.replay_cons, Heap.replay_nil, Heap.apply, hp, Buf.pooled, Finset.mem_erase]
  · intro b
    cases b <;> simp [hp, Buf.pooled]

/-- The `for` loop on a heap that holds `contours` and `frame` of loop `l` and no
`approx`: every accepted contour costs one allocation and one release, and the
live buffers are the same afterwards. -/
theorem Heap.replay_forLoop (cv : OpenCV Contour) (l i : Nat) (found : List Contour) (h : Heap)
    (hc : (l, Buf.contours) ∈ h.live) (hf : (l, Buf.frame) ∈ h.live)
    (ha : (l, Buf.approx) ∉ h.live) :
    h.replay (tag l (forLoop cv i found)) =
      some ⟨h.live, h.allocs + found.countP (accepted cv),
        h.releases + found.countP (accepted cv)⟩ := by
  induction found generalizing i h with
  | nil => simp [forLoop, tag_nil, Heap.replay_nil]
  | cons c rest ih =>
    rw [forLoop, tag_append, Heap.replay_append]
    by_cases hacc : cv.contourArea c > 1000
    · have hstep : h.replay (tag l (iteration cv i c)) =
          some ⟨h.live, h.allocs + 1, h.releases + 1⟩ := by
        rw [iteration_accepted cv i c hacc]
        simp [tag, Heap.replay_cons, Heap.replay_nil, Heap.apply, Op.reads, Op.writes, hc, hf,
          ha, drawRect, Finset.erase_insert]
      rw [hstep, Option.some_bind, ih (i + 1) ⟨h.live, h.allocs + 1, h.releases + 1⟩ hc hf ha]
      have hcount : (c :: rest).countP (accepted cv) = rest.countP (accepted cv) + 1 := by
        rw [List.countP_cons_of_pos]
        simp [accepted, hacc]
      simp only [hcount, Option.some.injEq, Heap.mk.injEq, true_and]
      omega
    · have hstep : h.replay (tag l (iteration cv i c)) = some h := by
        rw [iteration_rejected cv i c hacc]
        simp [tag, Heap.replay_cons, Heap.replay_nil, Heap.apply, Op.reads, Op.writes, hc]
      rw [hstep, Option.some_bind, ih (i + 1) h hc hf ha]
      have hcount : (c :: rest).countP (accepted cv) = rest.countP (accepted cv) := by
        rw [List.countP_cons_of_neg]
        simp [accepted, hacc]
      rw [hcount]

/-- A playing tick that runs to its end on a heap that holds exactly the pool
of loop `l`: it is legal and leaves the same buffers live. -/
theorem Heap.replay_playing (cv : OpenCV Contour) (l : Nat) (h : Heap) (paused ended : Bool)
    (found : List Contour) (hplay : (paused || ended) = false)
    (hp : ∀ b, ((l, b) ∈ h.live ↔ b.pooled = true)) :
    h.replay (tag l (processFrame cv paused ended found)) =
      some ⟨h.live, h.allocs + 1 + found.countP (accepted cv),
        h.releases + found.countP (accepted cv) + 1⟩ := by
  have hedges : (l, Buf.edges) ∉ h.live := by simp [hp, Buf.pooled]
  have hhead : h.replay (tag l [.capRead .frame, .cvtColor .frame .hsv,
      .GaussianBlur .hsv .blurred 5 5, .inRange .blurred .lowerWhite .upperWhite .mask,
      .alloc .edges, .Canny .mask .edges 50 150, .findContours .edges .contours .hierarchy,
      .clearRect]) = some ⟨insert (l, .edges) h.live, h.allocs + 1, h.releases⟩ := by
    simp [tag, Heap.replay_cons, Heap.replay_nil, Heap.apply, Op.reads, Op.writes, hp,
      Buf.pooled]
  rw [processFrame_playing cv paused ended found hplay, tag_append, tag_append,
    Heap.replay_append, Heap.replay_append, hhead, Option.some_bind,
    Heap.replay_forLoop cv l 0 found _ (by simp [hp, Buf.pooled]) (by simp [hp, Buf.pooled])
      (by simp [hp, Buf.pooled]),
    Option.some_bind]
  simp [tag, Heap.replay_cons, Heap.replay_nil, Heap.apply, Op.reads, Op.writes, hp,
    Buf.pooled, Finset.erase_insert hedges]

/-- Any call of `processFrame` by loop `l`, cut short or not, on a heap that
holds exactly the pool of `l`, is legal; a call after which the loop is running
leaves exactly the pool live, a call after which it is stopped leaves nothing
of `l`. -/
theorem Heap.replay_call (cv : OpenCV Contour) (l : Nat) (h : Heap) (paused ended : Bool)
    (found : List Contour) (failAt : Option Nat)
    (hp : ∀ b, ((l, b) ∈ h.live ↔ b.pooled = true)) :
    ∃ h', h.replay (tag l (execute failAt (processFrame cv paused ended found)).1) = some h' ∧
      (statusAfter (execute failAt (processFrame cv paused ended found)) = .running →
        ∀ b, ((l, b) ∈ h'.live ↔ b.pooled = true)) ∧
      (statusAfter (execute failAt (processFrame cv paused ended found)) = .stopped →
        ∀ b, (l, b) ∉ h'.live) := by
  cases hstop : (paused || ended) with
  | true =>
    rw [execute_stop cv failAt paused ended found hstop]
    obtain ⟨h', hr, hfree⟩ := Heap.replay_stop cv l h paused ended found hstop hp
    refine ⟨h', hr, fun hrun => ?_, fun _ => hfree⟩
    rw [statusAfter_stop cv paused ended found hstop] at hrun
    cases hrun
  | false =>
    have hfull := Heap.replay_playing cv l h paused ended found hstop hp
    cases hthrew : (execute failAt (processFrame cv paused ended found)).2 with
    | false =>
      rw [execute_returned _ _ hthrew]
      refine ⟨_, hfull, fun _ => hp, fun hst => ?_⟩
      rw [statusAfter_playing cv paused ended found hstop] at hst
      cases hst
    | true =>
      obtain ⟨k, op, _, _, _, hex⟩ := execute_threw _ _ hthrew
      rw [hex]
      obtain ⟨h'', hr⟩ := Heap.replay_take h _ _ k hfull
      refine ⟨h'', ?_, fun hst => ?_, fun hst => ?_⟩
      · rw [tag, ← List.map_take] at hr
        exact hr
      · simp [statusAfter] at hst
      · simp [statusAfter] at hst

theorem Inv.of_eq {s s' : Sched} {h : Heap} (hi : Inv s h) (hl : s'.loops = s.loops)
    (hg : s'.log = s.log) : Inv s' h :=
  ⟨hg ▸ hi.replay, hi.balanced, hl ▸ hi.bound, hl ▸ hi.pool, hl ▸ hi.freed⟩

theorem Inv.init (a b c : Bool) : Inv (Sched.init a b c) Heap.empty :=
  ⟨rfl, rfl, fun _ _ hb => by simp [Heap.empty] at hb, fun _ hl => by simp [Sched.init] at hl,
    fun _ hl => by simp [Sched.init] at hl⟩

theorem Inv.fireTimer (cv : OpenCV Contour) (l : Nat) (found : List Contour)
    (failAt : Option Nat) (s : Sched) (h : Heap) (hi : Inv s h) :
    ∃ h', Inv (fireTimer cv l found failAt s) h' := by
  unfold OpenCVVideo.fireTimer
  split
  · rename_i hrun
    have hl : l < s.loops.length := by
      rcases Nat.lt_or_ge l s.loops.length with hlt | hge
      · exact hlt
      · rw [List.getElem?_eq_none hge] at hrun
        cases hrun
    obtain ⟨h', hr, hpool, hfree⟩ :=
      Heap.replay_call cv l h s.paused s.ended found failAt (hi.pool l hrun)
    obtain ⟨hbal, hother⟩ := Heap.replay_tag_frame l _ h h' hr
    refine ⟨h', ?_, hbal hi.balanced, ?_, ?_, ?_⟩
    · show Heap.empty.replay (s.log ++ _) = some h'
      rw [Heap.replay_append, hi.replay]
      exact hr
    · intro l' b hb
      show l' < (s.loops.set l _).length
      rw [List.length_set]
      by_cases hne : l' = l
      · rw [hne]
        exact hl
      · exact hi.bound l' b ((hother l' b hne).mp hb)
    · intro l' hl' b
      have hl' : (s.loops.set l _)[l']? = some Status.running := hl'
      rw [List.getElem?_set] at hl'
      by_cases hne : l = l'
      · subst hne
        rw [if_pos rfl, if_pos hl] at hl'
        exact hpool (Option.some.inj hl') b
      · rw [if_neg hne] at hl'
        exact (hother l' b (Ne.symm hne)).trans (hi.pool l' hl' b)
    · intro l' hl' b
      have hl' : (s.loops.set l _)[l']? = some Status.stopped := hl'
      rw [List.getElem?_set] at hl'
      by_cases hne : l = l'
      · subst hne
        rw [if_pos rfl, if_pos hl] at hl'
        exact hfree (Option.some.inj hl') b
      · rw [if_neg hne] at hl'
        exact fun hb => hi.freed l' hl' b ((hother l' b (Ne.symm hne)).mp hb)
  · exact ⟨h, hi⟩

theorem Inv.playHandler (cv : OpenCV Contour) (found : List Contour) (failAt : Option Nat)
    (s : Sched) (h : Heap) (hi : Inv s h) :
    ∃ h', Inv (playHandler cv found failAt s) h' := by
  have hfresh : ∀ b, (s.loops.length, b) ∉ h.live :=
    fun b hb => Nat.lt_irrefl _ (hi.bound _ b hb)
  obtain ⟨h1, hr1, hp1⟩ := Heap.replay_playHandlerAllocs s.loops.length h hfresh
  obtain ⟨h2, hr2, hpool, hfree⟩ :=
    Heap.replay_call cv s.loops.length h1 s.paused s.ended found failAt hp1
  obtain ⟨hbal1, hother1⟩ := Heap.replay_tag_frame _ _ h h1 hr1
  obtain ⟨hbal2, hother2⟩ := Heap.replay_tag_frame _ _ h1 h2 hr2
  have hold : ∀ l' st, (s.loops ++ [statusAfter
      (execute failAt (processFrame cv s.paused s.ended found))])[l']? = some st →
      (l' < s.loops.length ∧ s.loops[l']? = some st) ∨
      (l' = s.loops.length ∧
        st = statusAfter (execute failAt (processFrame cv s.paused s.ended found))) := by
    intro l' st hl'
    rcases Nat.lt_or_ge l' s.loops.length with hlt | hge
    · rw [List.getElem?_append_left hlt] at hl'
      exact Or.inl ⟨hlt, hl'⟩
    · rw [List.getElem?_append_right hge] at hl'
      rcases Nat.eq_or_lt_of_le hge with heq | hgt
      · rw [← heq] at hl'
        simp at hl'
        exact Or.inr ⟨heq.symm, hl'.symm⟩
      · have : l' - s.loops.length ≠ 0 := by omega
        obtain ⟨d, hd⟩ := Nat.exists_eq_succ_of_ne_zero this
        rw [hd] at hl'
        simp at hl'
  refine ⟨h2, ?_, hbal2 (hbal1 hi.balanced), ?_, ?_, ?_⟩
  · show Heap.empty.replay (s.log ++ tag s.loops.length (playHandlerAllocs ++ _)) = some h2
    rw [Heap.replay_append, hi.replay, tag_append, Option.some_bind, Heap.replay_append, hr1]
    exact hr2
  · intro l' b hb
    show l' < (s.loops ++ [_]).length
    rw [List.length_append, List.length_singleton]
    by_cases hne : l' = s.loops.length
    · omega
    · have := hi.bound l' b ((hother1 l' b hne).mp ((hother2 l' b hne).mp hb))
      omega
  · intro l' hl' b
    rcases hold l' _ hl' with ⟨hlt, hl''⟩ | ⟨heq, hst⟩
    · have hne : l' ≠ s.loops.length := Nat.ne_of_lt hlt
      exact ((hother2 l' b hne).trans (hother1 l' b hne)).trans (hi.pool l' hl'' b)
    · subst heq
      exact hpool hst.symm b
  · intro l' hl' b
    rcases hold l' _ hl' with ⟨hlt, hl''⟩ | ⟨heq, hst⟩
    · have hne : l' ≠ s.loops.length := Nat.ne_of_lt hlt
      exact fun hb => hi.freed l' hl'' b ((hother1 l' b hne).mp ((hother2 l' b hne).mp hb))
    · subst heq
      exact hfree hst.symm b

theorem Inv.dispatchPlay (cv : OpenCV Contour) (found : List Contour) (failAt : Option Nat)
    (n : Nat) (s : Sched) (h : Heap) (hi : Inv s h) :
    ∃ h', Inv (dispatchPlay cv found failAt n s) h' := by
  induction n generalizing s h with
  | zero => exact ⟨h, hi⟩
  | succ n ih =>
    obtain ⟨h1, hi1⟩ := Inv.playHandler cv found failAt s h hi
    exact ih _ h1 hi1

theorem Inv.step (cv : OpenCV Contour) (s : Sched) (e : Ev Contour) (h : Heap) (hi : Inv s h) :
    ∃ h', Inv (step cv s e) h' := by
  cases e with
  | effect => exact ⟨h, hi.of_eq (useEffect_loops_log s).1 (useEffect_loops_log s).2⟩
  | cvLoaded => exact ⟨h, hi.of_eq rfl rfl⟩
  | pollTimer =>
    simp only [OpenCVVideo.step]
    split
    · exact ⟨h, hi.of_eq (processVideo_loops_log _).1 (processVideo_loops_log _).2⟩
    · exact ⟨h, hi⟩
  | play found failAt =>
    exact Inv.dispatchPlay cv found failAt s.listeners _ h (hi.of_eq rfl rfl)
  | pause => exact ⟨h, hi.of_eq rfl rfl⟩
  | ended => exact ⟨h, hi.of_eq rfl rfl⟩
  | timer l found failAt => exact Inv.fireTimer cv l found failAt s h hi

theorem Inv.run (cv : OpenCV Contour) (es : List (Ev Contour)) (s : Sched) (h : Heap)
    (hi : Inv s h) : ∃ h', Inv (run cv s es) h' := by
  induction es generalizing s h with
  | nil => exact ⟨h, hi⟩
  | cons e es ih =>
    obtain ⟨h1, hi1⟩ := Inv.step cv s e h hi
    exact ih _ h1 hi1

/-- The two counters of the heap count the allocations and the releases of
the log. -/
theorem Heap.replay_counts (log : List (Nat × Op)) (h h' : Heap) (hr : h.replay log = some h') :
    h'.allocs = h.allocs + log.countP (fun e => e.2.isAlloc) ∧
    h'.releases = h.releases + log.countP (fun e => e.2.isDelete) := by
  induction log generalizing h with
  | nil =>
    cases hr
    exact ⟨rfl, rfl⟩
  | cons e rest ih =>
    rw [Heap.replay_cons] at hr
    cases hap : h.apply e with
    | none => simp [hap] at hr
    | some h1 =>
      rw [hap] at hr
      obtain ⟨ha, hd⟩ := ih h1 hr
      obtain ⟨l, op⟩ := e
      have hstep : h1.allocs = h.allocs + (if op.isAlloc then 1 else 0) ∧
          h1.releases = h.releases + (if op.isDelete then 1 else 0) := by
        cases op
        case alloc b =>
          simp only [Heap.apply] at hap
          split at hap
          · cases hap
          · cases hap
            exact ⟨rfl, rfl⟩
        case delete b =>
          simp only [Heap.apply] at hap
          split at hap
          · cases hap
            exact ⟨rfl, rfl⟩
          · cases hap
        all_goals
          simp only [Heap.apply] at hap
          split at hap
          · cases hap
            exact ⟨rfl, rfl⟩
          · cases hap
      rw [List.countP_cons, List.countP_cons, ha, hd, hstep.1, hstep.2]
      dsimp only
      constructor <;> omega

end HeapLemmas

/-! ## Buffer balance -/

section Balance

variable {Contour : Type}

/-- The heap check refuses a release of a released buffer, and a read of a
released buffer. -/
theorem Heap.replay_rejects :
    (Heap.empty.replay
      [(0, .alloc .frame), (0, .delete .frame), (0, .delete .frame)]).isSome = false ∧
    (Heap.empty.replay
      [(0, .alloc .frame), (0, .delete .frame), (0, .imshow .frame)]).isSome = false := by
  decide

/-- C5: after any sequence of events (effect runs, play, pause, end, timer
ticks, with or without failing stages) the log is legal for the heap: every
release is of a live buffer and every read or write is of a live buffer, so
nothing is released twice or used after its release.  When every loop started
so far has reached its stop tick, no buffer is live and the log holds as many
allocations as releases. -/
theorem buffers_balanced_when_loops_stopped (cv : OpenCV Contour) (a b c : Bool)
    (es : List (Ev Contour)) :
    ∃ h : Heap, Heap.empty.replay (run cv (Sched.init a b c) es).log = some h ∧
      ((∀ st ∈ (run cv (Sched.init a b c) es).loops, st = .stopped) →
        h.live = ∅ ∧
        (run cv (Sched.init a b c) es).log.countP (fun e => e.2.isAlloc) =
          (run cv (Sched.init a b c) es).log.countP (fun e => e.2.isDelete)) := by
  obtain ⟨h, hi⟩ := Inv.run cv es (Sched.init a b c) Heap.empty (Inv.init a b c)
  refine ⟨h, hi.replay, fun hall => ?_⟩
  have hempty : h.live = ∅ := by
    apply Finset.eq_empty_of_forall_not_mem
    rintro ⟨l, buf⟩ hmem
    have hl := hi.bound l buf hmem
    have hst : (run cv (Sched.init a b c) es).loops[l]? = some .stopped := by
      rw [List.getElem?_eq_getElem hl]
      exact congrArg some (hall _ (List.getElem_mem hl))
    exact hi.freed l hst buf hmem
  refine ⟨hempty, ?_⟩
  obtain ⟨ha, hd⟩ := Heap.replay_counts _ _ _ hi.replay
  have hbal := hi.balanced
  rw [hempty, Finset.card_empty, ha, hd] at hbal
  simpa [Heap.empty] using hbal

/-- C5, closed instance: play, pause, play before the first loop has seen the
pause, then the end of the video and the stop ticks of both loops. -/
theorem buffers_balanced_when_loops_stopped_witness :
    ∃ h : Heap,
      Heap.empty.replay (run sampleCv (Sched.init true true true)
        [.effect, .play [(⟨400, 200, 100, 100⟩, 10000)] none, .pause, .play [] none,
         .timer 0 [] none, .timer 1 [] none, .ended, .timer 1 [] none,
         .timer 0 [] none]).log = some h ∧
      h.live = ∅ ∧
      (run sampleCv (Sched.init true true true)
        [.effect, .play [(⟨400, 200, 100, 100⟩, 10000)] none, .pause, .play [] none,
         .timer 0 [] none, .timer 1 [] none, .ended, .timer 1 [] none,
         .timer 0 [] none]).log.countP (fun e => e.2.isAlloc) = 21 := by
  obtain ⟨h, hr, hstop⟩ := buffers_balanced_when_loops_stopped sampleCv true true true
    [.effect, .play [(⟨400, 200, 100, 100⟩, 10000)] none, .pause, .play [] none,
     .timer 0 [] none, .timer 1 [] none, .ended, .timer 1 [] none, .timer 0 [] none]
  exact ⟨h, hr, (hstop (by decide)).1, by decide⟩

end Balance

/-! ## How many loops run at once -/

section Running

variable {Contour : Type}

theorem playHandler_fields (cv : OpenCV Contour) (found : List Contour) (failAt : Option Nat)
    (s : Sched) :
    (playHandler cv found failAt s).listeners = s.listeners ∧
    (playHandler cv found failAt s).pollTimers = s.pollTimers ∧
    (playHandler cv found failAt s).paused = s.paused ∧
    (playHandler cv found failAt s).ended = s.ended ∧
    (playHandler cv found failAt s).loops =
      s.loops ++ [statusAfter (execute failAt (processFrame cv s.paused s.ended found))] :=
  ⟨rfl, rfl, rfl, rfl, rfl⟩

theorem dispatchPlay_fields (cv : OpenCV Contour) (found : List Contour) (failAt : Option Nat)
    (n : Nat) (s : Sched) :
    (dispatchPlay cv found failAt n s).listeners = s.listeners ∧
    (dispatchPlay cv found failAt n s).pollTimers = s.pollTimers ∧
    (dispatchPlay cv found failAt n s).loops =
      s.loops ++ List.replicate n
        (statusAfter (execute failAt (processFrame cv s.paused s.ended found))) := by
  induction n generalizing s with
  | zero => simp [dispatchPlay]
  | succ n ih =>
    obtain ⟨h1, h2, h3⟩ := ih (playHandler cv found failAt s)
    obtain ⟨g1, g2, g3, g4, g5⟩ := playHandler_fields cv found failAt s
    rw [g3, g4, g5] at h3
    refine ⟨h1.trans g1, h2.trans g2, ?_⟩
    rw [dispatchPlay, h3, List.replicate_succ, List.append_assoc]
    rfl

theorem fireTimer_fields (cv : OpenCV Contour) (l : Nat) (found : List Contour)
    (failAt : Option Nat) (s : Sched) :
    (fireTimer cv l found failAt s).listeners = s.listeners ∧
    (fireTimer cv l found failAt s).pollTimers = s.pollTimers ∧
    (fireTimer cv l found failAt s).runningCount ≤ s.runningCount := by
  unfold fireTimer
  split
  · rename_i hrun
    refine ⟨rfl, rfl, ?_⟩
    obtain ⟨hl, hget⟩ := List.getElem?_eq_some.mp hrun
    have hpos : 0 < s.loops.count .running :=
      List.count_pos_iff.mpr (hget ▸ List.getElem_mem hl)
    show (s.loops.set l _).count .running ≤ s.loops.count .running
    rw [List.count_set _ _ _ _ hl, hget]
    simp only [beq_self_eq_true, if_true]
    split <;> omega
  · exact ⟨rfl, rfl, Nat.le_refl _⟩

/-- The effect registers at most one listener and arms no poll. -/
theorem useEffect_fields (s : Sched) :
    (useEffect s).pollTimers = s.pollTimers ∧
    s.listeners ≤ (useEffect s).listeners ∧ (useEffect s).listeners ≤ s.listeners + 1 := by
  unfold useEffect
  split
  · exact ⟨rfl, Nat.le_refl _, Nat.le_succ _⟩
  · rename_i hg
    simp only [Bool.or_eq_true, Bool.not_eq_true', not_or, Bool.not_eq_false] at hg
    unfold processVideo
    simp only [hg.1.1, hg.1.2, hg.2, Bool.not_true, Bool.and_self, if_true]
    exact ⟨rfl, Nat.le_succ _, Nat.le_refl _⟩

/-- A disciplined event sequence keeps at most one listener and at most one
running loop. -/
theorem disciplined_invariant (cv : OpenCV Contour) (es : List (Ev Contour)) (s : Sched)
    (hpoll : s.pollTimers = 0) (hlis : s.listeners ≤ 1) (hcount : s.runningCount ≤ 1)
    (hd : disciplined cv s es = true) :
    (run cv s es).listeners ≤ 1 ∧ (run cv s es).runningCount ≤ 1 := by
  induction es generalizing s with
  | nil => exact ⟨hlis, hcount⟩
  | cons e es ih =>
    cases e with
    | effect =>
      simp only [disciplined, Bool.and_eq_true, beq_iff_eq] at hd
      obtain ⟨h1, h2, h3⟩ := useEffect_fields s
      refine ih (step cv s .effect) (h1.trans hpoll) ?_ ?_ hd.2
      · show (useEffect s).listeners ≤ 1
        omega
      · show (useEffect s).loops.count .running ≤ 1
        rw [(useEffect_loops_log s).1]
        exact hcount
    | cvLoaded =>
      simp only [disciplined] at hd
      exact ih _ hpoll hlis hcount hd
    | pollTimer =>
      simp only [disciplined] at hd
      have hstep : step cv s .pollTimer = s := by
        simp [step, hpoll]
      rw [hstep] at hd
      have hrun : run cv s (.pollTimer :: es) = run cv s es := by
        show run cv (step cv s .pollTimer) es = _
        rw [hstep]
      rw [hrun]
      exact ih s hpoll hlis hcount hd
    | play found failAt =>
      simp only [disciplined, Bool.and_eq_true, beq_iff_eq] at hd
      obtain ⟨h1, h2, h3⟩ := dispatchPlay_fields cv found failAt s.listeners
        { s with paused := false, ended := false }
      refine ih (step cv s (.play found failAt)) (h2.trans hpoll) (h1.trans_le hlis) ?_ hd.2
      show (dispatchPlay cv found failAt s.listeners _).loops.count .running ≤ 1
      rw [h3, List.count_append]
      have hzero : s.loops.count .running = 0 := hd.1
      have hrep := List.count_le_length Status.running (List.replicate s.listeners
        (statusAfter (execute failAt (processFrame cv false false found))))
      rw [List.length_replicate] at hrep
      show s.loops.count .running + _ ≤ 1
      rw [hzero]
      exact Nat.le_trans (by simpa using hrep) hlis
    | pause =>
      simp only [disciplined] at hd
      exact ih _ hpoll hlis hcount hd
    | ended =>
      simp only [disciplined] at hd
      exact ih _ hpoll hlis hcount hd
    | timer l found failAt =>
      simp only [disciplined] at hd
      obtain ⟨h1, h2, h3⟩ := fireTimer_fields cv l found failAt s
      exact ih (step cv s (.timer l found failAt)) (h2.trans hpoll) (h1.trans_le hlis)
        (Nat.le_trans h3 hcount) hd

/-- C7, counterexample: two loops run at once when the video is paused and
played again before the timer of the first loop fires, and also when the
effect ran twice before the video plays. -/
theorem two_loops_running_counterexample :
    (run sampleCv (Sched.init true true true)
        [.effect, .play [] none, .pause, .play [] none]).loops = [.running, .running] ∧
    (run sampleCv (Sched.init true true true)
        [.effect, .effect, .play [] none]).loops = [.running, .running] ∧
    ¬ (run sampleCv (Sched.init true true true)
        [.effect, .play [] none, .pause, .play [] none, .timer 0 [] none]).runningCount ≤ 1 := by
  decide

/-- C7 as amended: the play event starts one loop per registered listener,
whatever the earlier loops are doing, so the number of running loops grows by
the number of listeners; at most one loop runs in every state reached by a
sequence of events in which the effect body runs only while no listener is
registered and the video starts playing only while no loop is running. -/
theorem one_loop_when_disciplined (cv : OpenCV Contour) (a b c : Bool)
    (es : List (Ev Contour)) :
    (∀ (s : Sched) (found : List Contour),
      (step cv s (.play found none)).runningCount = s.runningCount + s.listeners) ∧
    (disciplined cv (Sched.init a b c) es = true →
      (run cv (Sched.init a b c) es).runningCount ≤ 1) := by
  constructor
  · intro s found
    obtain ⟨_, _, h3⟩ := dispatchPlay_fields cv found none s.listeners
      { s with paused := false, ended := false }
    show (dispatchPlay cv found none s.listeners _).loops.count .running = _
    rw [h3, List.count_append]
    have hst : statusAfter (execute none (processFrame cv false false found)) = .running :=
      statusAfter_playing cv false false found rfl
    show s.loops.count .running + (List.replicate s.listeners (statusAfter
      (execute none (processFrame cv false false found)))).count .running = _
    rw [hst, List.count_replicate_self]
    rfl
  · intro hd
    exact (disciplined_invariant cv es (Sched.init a b c) rfl (Nat.zero_le _) (Nat.zero_le _)
      hd).2

/-- C7 as amended, closed instance: play, two ticks, pause, the stop tick,
then play again. -/
theorem one_loop_when_disciplined_witness :
    (run sampleCv (Sched.init true true true)
        [.effect, .play [] none, .timer 0 [] none, .pause, .timer 0 [] none,
         .play [] none, .timer 1 [] none]).runningCount ≤ 1 :=
  (one_loop_when_disciplined sampleCv true true true
    [.effect, .play [] none, .timer 0 [] none, .pause, .timer 0 [] none,
     .play [] none, .timer 1 [] none]).2 (by decide)

end Running

end OpenCVVideo
